import Mathlib

/-!
Verification of the Assessment Intelligence Pipeline of the Student Stress
Monitor repository. The frontend sources (`frontend/src`) are embedded
directly; the backend pipeline components (Validator, Classifier Adapter,
Attribution Engine, Recommendation Engine, Trend Aggregator, Dashboard
Aggregator) are not present in the repository snapshot, so they are
modelled from the specification, against the data shapes declared in
`frontend/src/types/index.ts` and the schema table of
`frontend/src/pages/AssessmentPage.tsx`.
-/

namespace StressMonitor

/-- The three stress-risk labels, in the fixed priority order
`Low Risk < Moderate Risk < High Risk` (types/index.ts, Assessment.stress_level). -/
inductive Label where
  | lowRisk
  | moderateRisk
  | highRisk
deriving DecidableEq, Repr

/-- Index of a label in the fixed priority order (lowest index = lowest risk). -/
def Label.idx : Label → Nat
  | .lowRisk => 0
  | .moderateRisk => 1
  | .highRisk => 2

/-- One entry of the feature schema: name and inclusive bounds. -/
structure FeatureEntry where
  name : String
  min : Int
  max : Int
deriving DecidableEq, Repr

/-- The 20-entry feature schema, copied from the QUESTIONS table of
`frontend/src/pages/AssessmentPage.tsx` (ids and min/max bounds). -/
def QUESTIONS : List FeatureEntry := [
  ⟨"anxiety_level", 0, 30⟩,
  ⟨"self_esteem", 0, 30⟩,
  ⟨"mental_health_history", 0, 1⟩,
  ⟨"depression", 0, 30⟩,
  ⟨"headache", 0, 5⟩,
  ⟨"blood_pressure", 1, 3⟩,
  ⟨"sleep_quality", 0, 5⟩,
  ⟨"breathing_problem", 0, 5⟩,
  ⟨"noise_level", 0, 5⟩,
  ⟨"living_conditions", 1, 5⟩,
  ⟨"safety", 1, 5⟩,
  ⟨"basic_needs", 1, 5⟩,
  ⟨"academic_performance", 1, 5⟩,
  ⟨"study_load", 1, 5⟩,
  ⟨"teacher_student_relationship", 1, 5⟩,
  ⟨"future_career_concerns", 1, 5⟩,
  ⟨"social_support", 1, 5⟩,
  ⟨"peer_pressure", 1, 5⟩,
  ⟨"extracurricular_activities", 0, 5⟩,
  ⟨"bullying", 1, 5⟩]

/-- Name of the schema feature at position `i` (schema declaration order). -/
def featureName (i : Nat) : String :=
  ((QUESTIONS.get? i).map (fun e => e.name)).getD ""

/-- A raw submission value for one field: absent, present but not a number,
or a numeric value. -/
inductive RawField where
  | missing
  | nonNumeric
  | num (n : Int)
deriving DecidableEq, Repr

/-- A raw submission: a mapping from field names to raw values. -/
def RawSubmission := String → RawField

/-- Modelled from the spec: the Validator's per-field check (spec section 4.1,
the backend validator is not in the repository snapshot). A schema field
offends when it is missing, non-numeric, or out of its inclusive bounds. -/
def fieldOffends (raw : RawSubmission) (e : FeatureEntry) : Bool :=
  match raw e.name with
  | .missing => true
  | .nonNumeric => true
  | .num n => decide (n < e.min) || decide (e.max < n)

/-- Numeric content of a raw field, with 0 for non-numeric fields
(only used after validation has succeeded). -/
def RawField.numValue : RawField → Int
  | .num n => n
  | _ => 0

/-- Modelled from the spec: the names of all offending fields of a raw
submission, collected in schema order (spec section 4.1). -/
def validationErrors (raw : RawSubmission) : List String :=
  (QUESTIONS.filter (fun e => fieldOffends raw e)).map (fun e => e.name)

/-- Modelled from the spec: the Validator (spec section 4.1; the backend
validator is not in the repository snapshot). It walks the 20 schema entries
in order, collects the name of every offending field, and either returns the
validated FeatureVector or the full list of offending field names. -/
def validate (raw : RawSubmission) : Except (List String) (List (String × Int)) :=
  if (validationErrors raw).isEmpty then
    .ok (QUESTIONS.map (fun e => (e.name, (raw e.name).numValue)))
  else
    .error (validationErrors raw)

/-- Spec-side description of a valid field: some numeric value is present
and lies within the inclusive schema bounds. -/
def fieldOK (raw : RawSubmission) (e : FeatureEntry) : Prop :=
  ∃ n : Int, raw e.name = .num n ∧ e.min ≤ n ∧ n ≤ e.max

instance (raw : RawSubmission) (e : FeatureEntry) : Decidable (fieldOK raw e) :=
  match h : raw e.name with
  | .num n =>
    if hb : e.min ≤ n ∧ n ≤ e.max then
      isTrue ⟨n, h, hb.1, hb.2⟩
    else
      isFalse (fun hex => by
        obtain ⟨m, hm, h1, h2⟩ := hex
        rw [h] at hm
        cases hm
        exact hb ⟨h1, h2⟩)
  | .missing =>
    isFalse (fun hex => by
      obtain ⟨m, hm, _, _⟩ := hex
      rw [h] at hm
      cases hm)
  | .nonNumeric =>
    isFalse (fun hex => by
      obtain ⟨m, hm, _, _⟩ := hex
      rw [h] at hm
      cases hm)

/-- The three class probabilities of a PredictionResult
(types/index.ts, Assessment.all_probabilities). -/
structure Probs where
  low : ℚ
  moderate : ℚ
  high : ℚ
deriving DecidableEq, Repr

/-- Probability assigned to a given label. -/
def Probs.ofLabel (p : Probs) : Label → ℚ
  | .lowRisk => p.low
  | .moderateRisk => p.moderate
  | .highRisk => p.high

/-- Modelled from the spec: the Classifier Adapter's probability output
(spec section 4.2; the backend ml_service is not in the repository
snapshot). The underlying Random Forest classifier returns one probability
per label as the fraction of trees voting for the label. -/
def classifyProbs (vl vm vh : Nat) : Probs :=
  ⟨(vl : ℚ) / ((vl : ℚ) + (vm : ℚ) + (vh : ℚ)),
   (vm : ℚ) / ((vl : ℚ) + (vm : ℚ) + (vh : ℚ)),
   (vh : ℚ) / ((vl : ℚ) + (vm : ℚ) + (vh : ℚ))⟩

/-- Modelled from the spec: the Classifier Adapter's returned label
(spec section 4.2): the argmax of the probabilities, exact ties broken in
favor of the lower-risk label (lowest index wins). -/
def classifyLabel (vl vm vh : Nat) : Label :=
  if (classifyProbs vl vm vh).moderate ≤ (classifyProbs vl vm vh).low ∧
      (classifyProbs vl vm vh).high ≤ (classifyProbs vl vm vh).low then .lowRisk
  else if (classifyProbs vl vm vh).high ≤ (classifyProbs vl vm vh).moderate then .moderateRisk
  else .highRisk

/-- A top contributor as returned to the frontend
(types/index.ts, TopContributor), extended with the schema position
used for the tie-break. -/
structure Contributor where
  idx : Nat
  feature : String
  value : Int
  importance : ℚ
  impact_score : ℚ
deriving DecidableEq, Repr

/-- Modelled from the spec: the Attribution Engine's impact score
(spec section 4.3; the backend ml_service is not in the repository
snapshot): raw value times global importance, no normalization. -/
def impactScore (value : Int) (importance : ℚ) : ℚ :=
  (value : ℚ) * importance

/-- Modelled from the spec: one contributor per schema feature, built from the
validated raw values `fv` and the global importances `imp`, both indexed by
schema position. -/
def contributorsAll (fv : Nat → Int) (imp : Nat → ℚ) : List Contributor :=
  (List.range 20).map (fun i =>
    { idx := i
      feature := featureName i
      value := fv i
      importance := imp i
      impact_score := impactScore (fv i) (imp i) })

/-- Ranking order of contributors: higher impact score first, ties broken by
schema declaration order (first-declared wins). -/
def contribOrder (a b : Contributor) : Prop :=
  b.impact_score < a.impact_score ∨
    (a.impact_score = b.impact_score ∧ a.idx ≤ b.idx)

instance : DecidableRel contribOrder := fun a b => by
  unfold contribOrder
  infer_instance

instance : IsTotal Contributor contribOrder where
  total a b := by
    unfold contribOrder
    rcases lt_trichotomy a.impact_score b.impact_score with h | h | h
    · exact Or.inr (Or.inl h)
    · rcases Nat.le_total a.idx b.idx with hi | hi
      · exact Or.inl (Or.inr ⟨h, hi⟩)
      · exact Or.inr (Or.inr ⟨h.symm, hi⟩)
    · exact Or.inl (Or.inl h)

instance : IsTrans Contributor contribOrder where
  trans a b c hab hbc := by
    unfold contribOrder at *
    rcases hab with hab | ⟨hab, hia⟩
    · rcases hbc with hbc | ⟨hbc, _⟩
      · exact Or.inl (hbc.trans hab)
      · exact Or.inl (hbc ▸ hab)
    · rcases hbc with hbc | ⟨hbc, hib⟩
      · exact Or.inl (hab ▸ hbc)
      · exact Or.inr ⟨hab.trans hbc, hia.trans hib⟩

/-- Modelled from the spec: all 20 contributors ranked by impact score
descending, ties broken by schema order (spec section 4.3). -/
def rankedContributors (fv : Nat → Int) (imp : Nat → ℚ) : List Contributor :=
  List.insertionSort contribOrder (contributorsAll fv imp)

/-- Modelled from the spec: the Attribution Engine's output, the top 5 of the
ranked contributors (spec section 4.3). -/
def topContributors (fv : Nat → Int) (imp : Nat → ℚ) : List Contributor :=
  (rankedContributors fv imp).take 5

/-- One rule of the Recommendation Engine's ordered rule table:
a predicate over the FeatureVector, a recommendation text, and an urgency
flag (spec section 4.4). -/
structure Rule where
  pred : (Nat → Int) → Bool
  text : String
  urgent : Bool

/-- Deduplication by exact string equality, keeping the first occurrence
and preserving first-seen order. -/
def dedupFirstAux : List String → List String → List String
  | [], _ => []
  | x :: xs, seen =>
    if x ∈ seen then dedupFirstAux xs seen
    else x :: dedupFirstAux xs (x :: seen)

/-- Deduplicate a list of recommendation texts, first occurrence wins. -/
def dedupFirst (l : List String) : List String :=
  dedupFirstAux l []

/-- Modelled from the spec: the deduplicated texts of the urgent rules whose
predicate holds, in table order (spec section 4.4). -/
def urgentTexts (rules : List Rule) (fv : Nat → Int) : List String :=
  dedupFirst ((rules.filter (fun r => r.urgent && r.pred fv)).map (fun r => r.text))

/-- Modelled from the spec: the deduplicated texts of the matching standard
rules, in table order, with texts already produced by an urgent rule
removed (spec section 4.4). -/
def standardTexts (rules : List Rule) (fv : Nat → Int) : List String :=
  (dedupFirst ((rules.filter (fun r => !r.urgent && r.pred fv)).map (fun r => r.text))).filter
    (fun t => !(t ∈ urgentTexts rules fv : Bool))

/-- Modelled from the spec: the Recommendation Engine (spec section 4.4;
the backend recommendation_engine is not in the repository snapshot).
Urgent recommendations always precede standard ones; the output is capped at
`cap` items but urgent items are never dropped — standard items are
truncated first. -/
def recommendations (rules : List Rule) (fv : Nat → Int) (cap : Nat) : List String :=
  let urg := urgentTexts rules fv
  urg ++ (standardTexts rules fv).take (cap - urg.length)

/-- Number of records in a label sequence carrying a given label. -/
def countLabel (ls : List Label) (l : Label) : Nat :=
  ls.countP (fun x => decide (x = l))

/-- One persisted assessment record, as the aggregators see it: owner,
predicted label, creation time, and confidence score
(types/index.ts, Assessment). -/
structure StoreRecord where
  user_id : Nat
  label : Label
  created_at : Nat
  confidence : ℚ
deriving DecidableEq, Repr

/-- Modelled from the spec: the Trend Aggregator's percentage for one label,
`100 × count(label) / total`, 0 when the record sequence is empty
(spec section 4.5; the backend trends endpoint is not in the repository
snapshot). -/
def trendPercentage (recs : List StoreRecord) (l : Label) : ℚ :=
  if recs.length = 0 then 0
  else 100 * (countLabel (recs.map (fun r => r.label)) l : ℚ) / (recs.length : ℚ)

/-- Modelled from the spec: the Trend Aggregator's latest label, the label of
the most recent record of the chronologically ordered input, none when the
input is empty (spec section 4.5). -/
def latestLabel (recs : List StoreRecord) : Option Label :=
  recs.getLast?.map (fun r => r.label)

/-- Modelled from the spec: the most recent record of a list, by
`created_at`, with the later list entry winning exact timestamp ties
(spec section 4.6; the backend admin dashboard endpoint is not in the
repository snapshot). -/
def latestOf : List StoreRecord → Option StoreRecord
  | [] => none
  | r :: rs =>
    match latestOf rs with
    | none => some r
    | some m => if r.created_at ≤ m.created_at then some m else some r

/-- Modelled from the spec: a user's most recent record in the store. -/
def userLatest (recs : List StoreRecord) (u : Nat) : Option StoreRecord :=
  latestOf (recs.filter (fun r => decide (r.user_id = u)))

/-- The dashboard statistics record (types/index.ts, DashboardStats),
restricted to the fields the claims are about. -/
structure DashboardStats where
  total_users : Nat
  total_assessments : Nat
  dist_low : Nat
  dist_moderate : Nat
  dist_high : Nat
  high_risk_students : Nat
  average_confidence : ℚ
deriving DecidableEq, Repr

/-- Modelled from the spec: the Dashboard Aggregator (spec section 4.6; the
backend admin dashboard endpoint is not in the repository snapshot).
`stress_distribution` counts records per label over the full record set;
`high_risk_students` counts users whose most recent record is High Risk. -/
def dashboardStats (users : List Nat) (recs : List StoreRecord) : DashboardStats :=
  { total_users := users.length
    total_assessments := recs.length
    dist_low := countLabel (recs.map (fun r => r.label)) .lowRisk
    dist_moderate := countLabel (recs.map (fun r => r.label)) .moderateRisk
    dist_high := countLabel (recs.map (fun r => r.label)) .highRisk
    high_risk_students :=
      (users.filter (fun u =>
        match userLatest recs u with
        | some r => decide (r.label = .highRisk)
        | none => false)).length
    average_confidence :=
      if recs.length = 0 then 0
      else (recs.map (fun r => r.confidence)).sum / (recs.length : ℚ) }

/-- A contributor as rendered by the results page
(types/index.ts, TopContributor). -/
structure DisplayContributor where
  feature : String
  value : Int
  importance : ℚ
  impact_score : ℚ
deriving DecidableEq, Repr

/-- The width percentage of a contributor's impact bar on the results page
(ResultsPage.tsx line 216: width is importance * 100). -/
def resultsBarWidthPct (c : DisplayContributor) : ℚ :=
  c.importance * 100

/-- The numeric impact percentage printed under a contributor's bar on the
results page (ResultsPage.tsx line 220: importance * 100, then formatted
with one decimal). -/
def resultsImpactPct (c : DisplayContributor) : ℚ :=
  c.importance * 100

/-- An assessment as the admin user-detail page consumes it
(types/index.ts, Assessment: stress_level and confidence_score). -/
structure PageAssessment where
  stress_level : Label
  confidence_score : ℚ
deriving DecidableEq, Repr

/-- One page of a user's assessments as returned by the paginated store
(API_DOCUMENTATION.md, GET /api/admin/users/:userId/assessments with
page/per_page; AdminUserDetail.tsx loadAssessments requests per_page 10). -/
def fetchPage (all : List PageAssessment) (page perPage : Nat) : List PageAssessment :=
  (all.drop ((page - 1) * perPage)).take perPage

/-- The statistics block computed by the admin user-detail page. -/
structure UserDetailStats where
  total : Nat
  highRisk : Nat
  moderateRisk : Nat
  lowRisk : Nat
  avgConfidence : ℚ
deriving DecidableEq, Repr

/-- The stats object of AdminUserDetail.tsx lines 143-151: per-label counts
and average confidence over the currently loaded assessments, with the
average guarded to 0 on an empty list, and `total` taken from the store's
reported total. -/
def userDetailStats (assessments : List PageAssessment) (total : Nat) : UserDetailStats :=
  { total := total
    highRisk := assessments.countP (fun a => decide (a.stress_level = .highRisk))
    moderateRisk := assessments.countP (fun a => decide (a.stress_level = .moderateRisk))
    lowRisk := assessments.countP (fun a => decide (a.stress_level = .lowRisk))
    avgConfidence :=
      if 0 < assessments.length then
        (assessments.map (fun a => a.confidence_score)).sum / (assessments.length : ℚ)
      else 0 }

lemma countP_label_partition {α : Type} (f : α → Label) (l : List α) :
    l.countP (fun a => decide (f a = .lowRisk)) +
        l.countP (fun a => decide (f a = .moderateRisk)) +
        l.countP (fun a => decide (f a = .highRisk)) = l.length := by
  induction l with
  | nil => rfl
  | cons x xs ih =>
    cases hx : f x <;> simp [List.countP_cons, hx] <;> omega

lemma countLabel_map_partition {α : Type} (f : α → Label) (l : List α) :
    countLabel (l.map f) .lowRisk + countLabel (l.map f) .moderateRisk +
      countLabel (l.map f) .highRisk = l.length := by
  unfold countLabel
  rw [List.countP_map, List.countP_map, List.countP_map]
  exact countP_label_partition f l

/-- C6: for any stored record set, including the empty set, the Dashboard
Aggregator's stress distribution sums to the total number of assessments,
all components being zero on the empty set. -/
theorem dashboard_distribution_sums_to_total (users : List Nat) (recs : List StoreRecord) :
    (dashboardStats users recs).dist_low + (dashboardStats users recs).dist_moderate +
        (dashboardStats users recs).dist_high = (dashboardStats users recs).total_assessments ∧
      (dashboardStats [] []).dist_low = 0 ∧ (dashboardStats [] []).dist_moderate = 0 ∧
      (dashboardStats [] []).dist_high = 0 ∧ (dashboardStats [] []).total_assessments = 0 := by
  refine ⟨?_, rfl, rfl, rfl, rfl⟩
  show countLabel _ _ + countLabel _ _ + countLabel _ _ = recs.length
  exact countLabel_map_partition (fun r => r.label) recs

/-- C8: the Trend Aggregator returns, for each label, percentage
`100 × count(label) / total` with 0 when the input is empty, and the latest
label is the label of the most recent record, none on empty input; on
nonempty input the three percentages sum to 100. -/
theorem trend_aggregator_statistics (recs : List StoreRecord) :
    (recs = [] → trendPercentage recs .lowRisk = 0 ∧ trendPercentage recs .moderateRisk = 0 ∧
      trendPercentage recs .highRisk = 0 ∧ latestLabel recs = none) ∧
    (∀ r : StoreRecord, recs.getLast? = some r → latestLabel recs = some r.label) ∧
    (∀ l : Label, (recs.length : ℚ) * trendPercentage recs l =
      100 * (countLabel (recs.map (fun r => r.label)) l : ℚ)) ∧
    (recs ≠ [] → trendPercentage recs .lowRisk + trendPercentage recs .moderateRisk +
      trendPercentage recs .highRisk = 100) := by
  refine ⟨?_, ?_, ?_, ?_⟩
  · rintro rfl
    exact ⟨rfl, rfl, rfl, rfl⟩
  · intro r hr
    simp [latestLabel, hr]
  · intro l
    by_cases h : recs.length = 0
    · have : recs = [] := List.length_eq_zero.mp h
      subst this
      simp [trendPercentage, countLabel]
    · have hn : (recs.length : ℚ) ≠ 0 := by
        exact_mod_cast h
      simp only [trendPercentage, if_neg h]
      field_simp
  · intro h
    have h0 : recs.length ≠ 0 := by
      simpa using fun hc => h (List.length_eq_zero.mp hc)
    have hn : (recs.length : ℚ) ≠ 0 := by
      exact_mod_cast h0
    have hpart := countLabel_map_partition (fun r => r.label) recs
    simp only [trendPercentage, if_neg h0]
    rw [div_add_div_same, div_add_div_same, ← mul_add, ← mul_add]
    have : (countLabel (recs.map (fun r => r.label)) .lowRisk : ℚ) +
        (countLabel (recs.map (fun r => r.label)) .moderateRisk : ℚ) +
        (countLabel (recs.map (fun r => r.label)) .highRisk : ℚ) = (recs.length : ℚ) := by
      exact_mod_cast hpart
    rw [add_assoc] at this ⊢
    rw [this, mul_div_assoc, div_self hn, mul_one]

/-- An example chronological record sequence used to witness C8. -/
def exTrend : List StoreRecord :=
  [⟨1, .lowRisk, 0, 1/2⟩, ⟨1, .highRisk, 5, 3/4⟩]

theorem trend_aggregator_statistics_witness :
    latestLabel exTrend = some .highRisk ∧
      trendPercentage exTrend .lowRisk + trendPercentage exTrend .moderateRisk +
        trendPercentage exTrend .highRisk = 100 :=
  ⟨(trend_aggregator_statistics exTrend).2.1 ⟨1, .highRisk, 5, 3/4⟩ rfl,
   (trend_aggregator_statistics exTrend).2.2.2 (by decide)⟩

/-- C9: the impact percentage and the bar width rendered for a contributor on
the results page both equal the contributor's global importance times 100,
and depend only on the importance: contributors with equal importance render
identically, whatever their impact scores and raw values. -/
theorem results_page_impact_is_importance (c : DisplayContributor) :
    resultsImpactPct c = c.importance * 100 ∧
      resultsBarWidthPct c = c.importance * 100 ∧
      ∀ c2 : DisplayContributor, c2.importance = c.importance →
        resultsImpactPct c2 = resultsImpactPct c ∧
          resultsBarWidthPct c2 = resultsBarWidthPct c := by
  refine ⟨rfl, rfl, ?_⟩
  intro c2 h
  unfold resultsImpactPct resultsBarWidthPct
  rw [h]
  exact ⟨rfl, rfl⟩

theorem results_page_impact_witness :
    resultsImpactPct ⟨"anxiety_level", 15, 18/100, 27/10⟩ =
      resultsImpactPct ⟨"self_esteem", 5, 18/100, 9/10⟩ :=
  ((results_page_impact_is_importance ⟨"self_esteem", 5, 18/100, 9/10⟩).2.2
    ⟨"anxiety_level", 15, 18/100, 27/10⟩ rfl).1

/-- An example history of 11 assessments (more than one page of 10): ten
Low Risk pages entries followed by one High Risk entry on the second page. -/
def exEleven : List PageAssessment :=
  List.replicate 10 ⟨.lowRisk, 1/2⟩ ++ [⟨.highRisk, 9/10⟩]

/-- C10: the admin user-detail view's per-label counts and average confidence
are computed only over the currently loaded page of at most 10 assessments
(average 0 when the page is empty), while its total uses the store's full
total; on a concrete history of 11 records the page-one counts miss the
High Risk record that the whole history contains. -/
theorem admin_user_detail_stats_page_local (all : List PageAssessment) (page : Nat) :
    (fetchPage all page 10).length ≤ 10 ∧
      (userDetailStats (fetchPage all page 10) all.length).total = all.length ∧
      (userDetailStats (fetchPage all page 10) all.length).lowRisk +
          (userDetailStats (fetchPage all page 10) all.length).moderateRisk +
          (userDetailStats (fetchPage all page 10) all.length).highRisk =
        (fetchPage all page 10).length ∧
      (fetchPage all page 10 = [] →
        (userDetailStats (fetchPage all page 10) all.length).avgConfidence = 0) ∧
      (userDetailStats (fetchPage exEleven 1 10) exEleven.length).highRisk = 0 ∧
      exEleven.countP (fun a => decide (a.stress_level = .highRisk)) = 1 := by
  refine ⟨?_, rfl, ?_, ?_, by decide, by decide⟩
  · exact List.length_take_le 10 (all.drop ((page - 1) * 10))
  · show (fetchPage all page 10).countP _ + (fetchPage all page 10).countP _ +
        (fetchPage all page 10).countP _ = _
    have h := countP_label_partition (fun a => a.stress_level) (fetchPage all page 10)
    omega
  · intro h
    simp [userDetailStats, h]

theorem admin_user_detail_stats_witness :
    (userDetailStats (fetchPage ([] : List PageAssessment) 1 10)
      ([] : List PageAssessment).length).avgConfidence = 0 :=
  (admin_user_detail_stats_page_local [] 1).2.2.2.1 rfl

/-- C2: for every prediction produced on a valid vote profile, the three
label probabilities lie in [0,1] and sum to 1 within 1e-6, and the returned
label is the argmax of the probabilities, exact ties broken in favor of the
lower-risk label in the fixed order Low < Moderate < High. -/
theorem classifier_adapter_invariants (vl vm vh : Nat) (h : 0 < vl + vm + vh) :
    (0 ≤ (classifyProbs vl vm vh).low ∧ (classifyProbs vl vm vh).low ≤ 1) ∧
      (0 ≤ (classifyProbs vl vm vh).moderate ∧ (classifyProbs vl vm vh).moderate ≤ 1) ∧
      (0 ≤ (classifyProbs vl vm vh).high ∧ (classifyProbs vl vm vh).high ≤ 1) ∧
      |(classifyProbs vl vm vh).low + (classifyProbs vl vm vh).moderate +
          (classifyProbs vl vm vh).high - 1| ≤ 1 / 1000000 ∧
      (∀ l : Label, (classifyProbs vl vm vh).ofLabel l ≤
        (classifyProbs vl vm vh).ofLabel (classifyLabel vl vm vh)) ∧
      (∀ l : Label, (classifyProbs vl vm vh).ofLabel l =
          (classifyProbs vl vm vh).ofLabel (classifyLabel vl vm vh) →
        (classifyLabel vl vm vh).idx ≤ l.idx) := by
  have hn : (0 : ℚ) < (vl : ℚ) + (vm : ℚ) + (vh : ℚ) := by
    have : (0 : ℚ) < ((vl + vm + vh : Nat) : ℚ) := by
      exact_mod_cast h
    push_cast at this
    linarith
  have hl0 : (0 : ℚ) ≤ (vl : ℚ) := Nat.cast_nonneg vl
  have hm0 : (0 : ℚ) ≤ (vm : ℚ) := Nat.cast_nonneg vm
  have hh0 : (0 : ℚ) ≤ (vh : ℚ) := Nat.cast_nonneg vh
  have hsum : (classifyProbs vl vm vh).low + (classifyProbs vl vm vh).moderate +
      (classifyProbs vl vm vh).high = 1 := by
    unfold classifyProbs
    rw [div_add_div_same, div_add_div_same, div_self (ne_of_gt hn)]
  refine ⟨⟨?_, ?_⟩, ⟨?_, ?_⟩, ⟨?_, ?_⟩, ?_, ?_, ?_⟩
  · exact div_nonneg hl0 (le_of_lt hn)
  · exact (div_le_one hn).mpr (by linarith)
  · exact div_nonneg hm0 (le_of_lt hn)
  · exact (div_le_one hn).mpr (by linarith)
  · exact div_nonneg hh0 (le_of_lt hn)
  · exact (div_le_one hn).mpr (by linarith)
  · rw [hsum]
    simp
  · intro l
    unfold classifyLabel
    split_ifs with h1 h2
    · rcases l with _ | _ | _
      · exact le_refl _
      · exact h1.1
      · exact h1.2
    · push_neg at h1
      have hlm : (classifyProbs vl vm vh).low ≤ (classifyProbs vl vm vh).moderate := by
        by_contra hc
        push_neg at hc
        have := h1 hc.le
        linarith
      rcases l with _ | _ | _
      · exact hlm
      · exact le_refl _
      · exact h2
    · push_neg at h1 h2
      have hlh : (classifyProbs vl vm vh).low ≤ (classifyProbs vl vm vh).high := by
        by_cases hml : (classifyProbs vl vm vh).moderate ≤ (classifyProbs vl vm vh).low
        · exact (h1 hml).le
        · push_neg at hml
          linarith
      rcases l with _ | _ | _
      · exact hlh
      · exact h2.le
      · exact le_refl _
  · intro l
    unfold classifyLabel
    split_ifs with h1 h2
    · intro _
      simp [Label.idx]
    · push_neg at h1
      have hlm : (classifyProbs vl vm vh).low < (classifyProbs vl vm vh).moderate := by
        by_contra hc
        push_neg at hc
        have := h1 hc
        linarith
      rcases l with _ | _ | _
      · intro heq
        simp only [Probs.ofLabel] at heq
        exact absurd heq (ne_of_lt hlm)
      · intro _
        simp [Label.idx]
      · intro _
        simp [Label.idx]
    · push_neg at h1 h2
      have hmh : (classifyProbs vl vm vh).moderate < (classifyProbs vl vm vh).high := h2
      have hlh : (classifyProbs vl vm vh).low < (classifyProbs vl vm vh).high := by
        by_cases hml : (classifyProbs vl vm vh).moderate ≤ (classifyProbs vl vm vh).low
        · exact h1 hml
        · push_neg at hml
          linarith
      rcases l with _ | _ | _
      · intro heq
        simp only [Probs.ofLabel] at heq
        exact absurd heq (ne_of_lt hlh)
      · intro heq
        simp only [Probs.ofLabel] at heq
        exact absurd heq (ne_of_lt hmh)
      · intro _
        simp [Label.idx]

theorem classifier_adapter_witness :
    (classifyProbs 1 2 0).ofLabel .lowRisk ≤
      (classifyProbs 1 2 0).ofLabel (classifyLabel 1 2 0) :=
  (classifier_adapter_invariants 1 2 0 (by decide)).2.2.2.2.1 .lowRisk

/-- Example FeatureVector for the attribution claims, by schema position:
anxiety_level (position 0) is 15, depression (position 3) is 10, every other
feature is 1 (all values inside their schema bounds). -/
def exFv : Nat → Int :=
  fun i => if i = 0 then 15 else if i = 3 then 10 else 1

/-- Example global importances for the attribution claims, by schema
position: 0.18 for anxiety_level, 0.15 for depression, and 67/1800 for each
of the remaining 18 features, so that all 20 sum to 1. -/
def exImp : Nat → ℚ :=
  fun i => if i = 0 then 18/100 else if i = 3 then 15/100 else 67/1800

set_option maxRecDepth 8000 in
/-- C1: every contributor's impact score is exactly its raw value times its
global importance with no normalization; with anxiety_level = 15 under
importance 0.18 and depression = 10 under importance 0.15 the impact scores
are exactly 2.7 and 1.5, those two features are ranked first and second,
and in the ranking any feature with a higher impact score comes strictly
before any feature with a lower one. -/
theorem attribution_impact_exact (fv : Nat → Int) (imp : Nat → ℚ) :
    (∀ c ∈ contributorsAll fv imp, c.impact_score = (c.value : ℚ) * c.importance) ∧
      impactScore 15 (18/100) = 27/10 ∧
      impactScore 10 (15/100) = 3/2 ∧
      ((topContributors exFv exImp).map (fun c => c.feature)).take 2 =
        ["anxiety_level", "depression"] ∧
      (∀ i j (hi : i < (rankedContributors fv imp).length)
          (hj : j < (rankedContributors fv imp).length),
        ((rankedContributors fv imp).get ⟨j, hj⟩).impact_score <
            ((rankedContributors fv imp).get ⟨i, hi⟩).impact_score → i < j) := by
  refine ⟨?_, by norm_num [impactScore], by norm_num [impactScore],
    by with_unfolding_all decide, ?_⟩
  · intro c hc
    simp only [contributorsAll, List.mem_map, List.mem_range] at hc
    obtain ⟨i, _, rfl⟩ := hc
    rfl
  · intro i j hi hj hlt
    by_contra hc
    push_neg at hc
    rcases Nat.lt_or_ge j i with hji | hij
    · have hs : List.Sorted contribOrder (rankedContributors fv imp) :=
        List.sorted_insertionSort contribOrder (contributorsAll fv imp)
      have hp := List.pairwise_iff_get.mp hs ⟨j, hj⟩ ⟨i, hi⟩ hji
      unfold contribOrder at hp
      rcases hp with hp | ⟨hp, _⟩
      · exact absurd hlt (not_lt.mpr hp.le)
      · exact absurd hlt (not_lt.mpr hp.ge)
    · have : i = j := Nat.le_antisymm hij hc
      subst this
      exact lt_irrefl _ hlt

set_option maxRecDepth 8000 in
theorem attribution_impact_witness : (0 : Nat) < 1 :=
  (attribution_impact_exact exFv exImp).2.2.2.2 0 1
    (by with_unfolding_all decide) (by with_unfolding_all decide)
    (by with_unfolding_all decide)

lemma contributorsAll_map_idx (fv : Nat → Int) (imp : Nat → ℚ) :
    (contributorsAll fv imp).map (fun c => c.idx) = List.range 20 := by
  simp [contributorsAll, List.map_map]
  rfl

lemma rankedContributors_idx_nodup (fv : Nat → Int) (imp : Nat → ℚ) :
    ((rankedContributors fv imp).map (fun c => c.idx)).Nodup := by
  have hperm : List.Perm (rankedContributors fv imp) (contributorsAll fv imp) :=
    List.perm_insertionSort contribOrder (contributorsAll fv imp)
  generalize hgen : rankedContributors fv imp = t at hperm ⊢
  refine ((hperm.map (fun c => c.idx)).nodup_iff).mpr ?_
  rw [contributorsAll_map_idx]
  exact List.nodup_range 20

/-- C5: for every FeatureVector and importance assignment, the top
contributors list has at most 5 entries, each drawn from the 20 schema
features, and it is ordered by impact score descending with exact ties
broken by schema declaration order, first-declared wins. -/
theorem top_contributors_ranked (fv : Nat → Int) (imp : Nat → ℚ) :
    (topContributors fv imp).length ≤ 5 ∧
      (∀ c ∈ topContributors fv imp, c.feature ∈ QUESTIONS.map (fun e => e.name)) ∧
      (∀ i j (hi : i < (topContributors fv imp).length)
          (hj : j < (topContributors fv imp).length), i < j →
        ((topContributors fv imp).get ⟨j, hj⟩).impact_score <
            ((topContributors fv imp).get ⟨i, hi⟩).impact_score ∨
          (((topContributors fv imp).get ⟨i, hi⟩).impact_score =
              ((topContributors fv imp).get ⟨j, hj⟩).impact_score ∧
            ((topContributors fv imp).get ⟨i, hi⟩).idx <
              ((topContributors fv imp).get ⟨j, hj⟩).idx)) := by
  refine ⟨?_, ?_, ?_⟩
  · exact List.length_take_le 5 (rankedContributors fv imp)
  · intro c hc
    have hc2 : c ∈ rankedContributors fv imp :=
      List.Sublist.subset (List.take_sublist 5 _) hc
    have hc3 : c ∈ contributorsAll fv imp :=
      (List.perm_insertionSort contribOrder _).mem_iff.mp hc2
    simp only [contributorsAll, List.mem_map, List.mem_range] at hc3
    obtain ⟨i, hi20, rfl⟩ := hc3
    have hiq : i < QUESTIONS.length := by
      simpa [QUESTIONS] using hi20
    have hname : featureName i = (QUESTIONS.get ⟨i, hiq⟩).name := by
      simp [featureName, List.getElem?_eq_getElem hiq]
    rw [List.mem_map]
    exact ⟨QUESTIONS.get ⟨i, hiq⟩, List.get_mem _ _ _, hname.symm⟩
  · simp only [topContributors]
    intro i j hi hj hij
    generalize hgen : List.take 5 (rankedContributors fv imp) = t at hi hj ⊢
    have hsorted : List.Sorted contribOrder (rankedContributors fv imp) :=
      List.sorted_insertionSort contribOrder (contributorsAll fv imp)
    have htop : List.Pairwise contribOrder t := by
      rw [← hgen]
      exact List.Pairwise.sublist (List.take_sublist 5 _) hsorted
    have hsub := List.take_sublist 5 (rankedContributors fv imp)
    have hsubm := List.Sublist.map (fun c : Contributor => c.idx) hsub
    have hnd3 := List.Nodup.sublist hsubm (rankedContributors_idx_nodup fv imp)
    have hnd : (t.map (fun c => c.idx)).Nodup := by
      rw [← hgen]
      exact hnd3
    have hrel := List.pairwise_iff_get.mp htop ⟨i, hi⟩ ⟨j, hj⟩ hij
    unfold contribOrder at hrel
    rcases hrel with hrel | ⟨heq, hle⟩
    · exact Or.inl hrel
    · refine Or.inr ⟨heq, lt_of_le_of_ne hle ?_⟩
      intro hidx
      have hgi : (t.map (fun c => c.idx)).get ⟨i, by simpa using hi⟩ =
          (t.get ⟨i, hi⟩).idx := by
        simp
      have hgj : (t.map (fun c => c.idx)).get ⟨j, by simpa using hj⟩ =
          (t.get ⟨j, hj⟩).idx := by
        simp
      have hfin := hnd.get_inj_iff.mp
        (show (t.map (fun c => c.idx)).get ⟨i, by simpa using hi⟩ =
            (t.map (fun c => c.idx)).get ⟨j, by simpa using hj⟩ by
          rw [hgi, hgj]
          exact hidx)
      have hij2 : i = j := congrArg Fin.val hfin
      omega

set_option maxRecDepth 8000 in
theorem top_contributors_witness : "anxiety_level" ∈ QUESTIONS.map (fun e => e.name) := by
  have h0 : 0 < (topContributors exFv exImp).length := by
    with_unfolding_all decide
  have h := (top_contributors_ranked exFv exImp).2.1
    ((topContributors exFv exImp).get ⟨0, h0⟩) (List.get_mem _ _ _)
  have he : ((topContributors exFv exImp).get ⟨0, h0⟩).feature = "anxiety_level" := by
    with_unfolding_all (exact rfl)
  rwa [he] at h

lemma standardTexts_not_urgent {rules : List Rule} {fv : Nat → Int} {t : String}
    (ht : t ∈ standardTexts rules fv) : t ∉ urgentTexts rules fv := by
  unfold standardTexts at ht
  rw [List.mem_filter] at ht
  simpa using ht.2

/-- C3: for every rule table and every input triggering at least one urgent
rule, every urgent recommendation appears in the output and precedes every
standard recommendation regardless of rule-table position, and the cap never
drops urgent items: the output length is at most the maximum of the cap and
the number of urgent recommendations. -/
theorem recommendations_urgent_first (rules : List Rule) (fv : Nat → Int) (cap : Nat)
    (h : ∃ r ∈ rules, r.urgent = true ∧ r.pred fv = true) :
    (∀ t ∈ urgentTexts rules fv, t ∈ recommendations rules fv cap) ∧
      (∀ i j (hi : i < (recommendations rules fv cap).length)
          (hj : j < (recommendations rules fv cap).length),
        (recommendations rules fv cap).get ⟨i, hi⟩ ∈ urgentTexts rules fv →
        (recommendations rules fv cap).get ⟨j, hj⟩ ∉ urgentTexts rules fv → i < j) ∧
      (recommendations rules fv cap).length ≤
        max cap (urgentTexts rules fv).length := by
  refine ⟨?_, ?_, ?_⟩
  · intro t ht
    exact List.mem_append_left _ ht
  · intro i j hi hj hurg hnot
    have hi2 : i < (recommendations rules fv cap).length := hi
    have hj2 : j < (recommendations rules fv cap).length := hj
    have hA : ∀ k (hk : k < (recommendations rules fv cap).length),
        (urgentTexts rules fv).length ≤ k →
        (recommendations rules fv cap).get ⟨k, hk⟩ ∉ urgentTexts rules fv := by
      intro k hk hge
      have hk2 : k - (urgentTexts rules fv).length <
          ((standardTexts rules fv).take (cap - (urgentTexts rules fv).length)).length := by
        have := hk
        simp only [recommendations, List.length_append] at this
        omega
      have hget : (recommendations rules fv cap).get ⟨k, hk⟩ =
          ((standardTexts rules fv).take
            (cap - (urgentTexts rules fv).length))[k - (urgentTexts rules fv).length] := by
        show (recommendations rules fv cap)[k] = _
        exact List.getElem_append_right hge
      rw [hget]
      have hmem : ((standardTexts rules fv).take
          (cap - (urgentTexts rules fv).length))[k - (urgentTexts rules fv).length] ∈
          standardTexts rules fv :=
        List.mem_of_mem_take (List.getElem_mem _)
      exact standardTexts_not_urgent hmem
    have hB : ∀ k (hk : k < (recommendations rules fv cap).length),
        k < (urgentTexts rules fv).length →
        (recommendations rules fv cap).get ⟨k, hk⟩ ∈ urgentTexts rules fv := by
      intro k hk hlt
      have hget : (recommendations rules fv cap).get ⟨k, hk⟩ =
          (urgentTexts rules fv)[k] := by
        show (recommendations rules fv cap)[k] = _
        exact List.getElem_append_left hlt
      rw [hget]
      exact List.getElem_mem _
    have h1 : i < (urgentTexts rules fv).length := by
      by_contra hc
      push_neg at hc
      exact absurd hurg (hA i hi2 hc)
    have h2 : (urgentTexts rules fv).length ≤ j := by
      by_contra hc
      push_neg at hc
      exact absurd (hB j hj2 hc) hnot
    omega
  · simp only [recommendations, List.length_append, List.length_take]
    omega

/-- Example rule table for the recommendation claims, modelled from the rule
logic shown in PROJECT_SUMMARY.md (anxiety, urgent depression, and sleep
rules). Feature positions follow the schema: 0 anxiety_level, 3 depression,
6 sleep_quality. -/
def exRules : List Rule := [
  ⟨fun fv => decide (15 ≤ fv 0), "Practice deep breathing exercises", false⟩,
  ⟨fun fv => decide (15 ≤ fv 0), "Try mindfulness meditation", false⟩,
  ⟨fun fv => decide (20 ≤ fv 3), "URGENT: Contact campus counseling services", true⟩,
  ⟨fun fv => decide (20 ≤ fv 3), "Call the 988 Suicide and Crisis Lifeline", true⟩,
  ⟨fun fv => decide (fv 6 ≤ 2), "Establish a regular sleep schedule", false⟩,
  ⟨fun fv => decide (fv 6 ≤ 2), "Limit caffeine after 2 PM", false⟩]

/-- Example FeatureVector at the crisis threshold: depression (position 3)
is exactly 20, anxiety (position 0) is 15, sleep quality (position 6) is 1. -/
def exCrisisFv : Nat → Int :=
  fun i => if i = 0 then 15 else if i = 3 then 20 else 1

theorem recommendations_urgent_first_witness :
    "URGENT: Contact campus counseling services" ∈ recommendations exRules exCrisisFv 8 :=
  (recommendations_urgent_first exRules exCrisisFv 8 (by decide)).1 _ (by decide)

lemma fieldOffends_iff (raw : RawSubmission) (e : FeatureEntry) :
    fieldOffends raw e = true ↔ ¬ fieldOK raw e := by
  unfold fieldOffends fieldOK
  cases h : raw e.name with
  | missing => simp
  | nonNumeric => simp
  | num n =>
    simp only [Bool.or_eq_true, decide_eq_true_eq, RawField.num.injEq]
    constructor
    · rintro (hlt | hgt) ⟨m, hm, h1, h2⟩ <;> (cases hm; omega)
    · intro hno
      by_contra hc
      push_neg at hc
      exact hno ⟨n, rfl, by omega, by omega⟩

lemma fieldOffends_eq (raw : RawSubmission) (e : FeatureEntry) :
    fieldOffends raw e = !(decide (fieldOK raw e)) := by
  rw [Bool.eq_iff_iff]
  simp [fieldOffends_iff raw e]

lemma validate_ok_iff (raw : RawSubmission) :
    (∃ fv, validate raw = .ok fv) ↔ ∀ e ∈ QUESTIONS, fieldOK raw e := by
  constructor
  · rintro ⟨fv, hfv⟩ e he
    unfold validate at hfv
    by_cases hemp : (validationErrors raw).isEmpty
    · have hnil : QUESTIONS.filter (fun e => fieldOffends raw e) = [] := by
        have h0 : validationErrors raw = [] := by
          simpa using hemp
        unfold validationErrors at h0
        exact List.map_eq_nil_iff.mp h0
      have hnone := List.filter_eq_nil_iff.mp hnil e he
      have : ¬ fieldOffends raw e = true := by
        simpa using hnone
      by_contra hc
      exact this ((fieldOffends_iff raw e).mpr hc)
    · rw [if_neg hemp] at hfv
      cases hfv
  · intro hall
    refine ⟨QUESTIONS.map (fun e => (e.name, (raw e.name).numValue)), ?_⟩
    have hnil : QUESTIONS.filter (fun e => fieldOffends raw e) = [] := by
      refine List.filter_eq_nil_iff.mpr ?_
      intro e he
      simp only [Bool.not_eq_true]
      rw [fieldOffends_eq raw e]
      simp [hall e he]
    unfold validate validationErrors
    rw [hnil]
    rfl

lemma validate_error_eq (raw : RawSubmission) (errs : List String)
    (herr : validate raw = .error errs) : errs = validationErrors raw := by
  unfold validate at herr
  by_cases hemp : (validationErrors raw).isEmpty
  · rw [if_pos hemp] at herr
    cases herr
  · rw [if_neg hemp] at herr
    cases herr
    rfl

/-- C4: the Validator succeeds and returns a FeatureVector exactly when each
of the 20 schema fields is present, numeric, and within its inclusive
bounds; a value exactly at its minimum or maximum passes, a value one unit
outside fails with that exact field named; and on failure the error
enumerates every offending field (missing, non-numeric, or out-of-range) in
schema order, not only the first. -/
theorem validator_batch_reports (raw : RawSubmission) :
    ((∃ fv, validate raw = .ok fv) ↔ ∀ e ∈ QUESTIONS, fieldOK raw e) ∧
      (∀ errs, validate raw = .error errs →
        errs = (QUESTIONS.filter (fun e => !(decide (fieldOK raw e)))).map
          (fun e => e.name)) ∧
      (∀ e ∈ QUESTIONS, ∀ n : Int, raw e.name = .num n →
        (n = e.min ∨ n = e.max) → fieldOK raw e) ∧
      (∀ e ∈ QUESTIONS,
        (raw e.name = .num (e.min - 1) ∨ raw e.name = .num (e.max + 1)) →
        ∀ errs, validate raw = .error errs → e.name ∈ errs) ∧
      (∀ e ∈ QUESTIONS,
        (raw e.name = .num (e.min - 1) ∨ raw e.name = .num (e.max + 1)) →
        ¬ ∃ fv, validate raw = .ok fv) := by
  have hwf : ∀ e ∈ QUESTIONS, e.min ≤ e.max := by decide
  have hoffb : ∀ e ∈ QUESTIONS,
      (raw e.name = .num (e.min - 1) ∨ raw e.name = .num (e.max + 1)) →
      fieldOffends raw e = true := by
    intro e he hb
    unfold fieldOffends
    rcases hb with hb | hb <;> rw [hb] <;> simp
  refine ⟨validate_ok_iff raw, ?_, ?_, ?_, ?_⟩
  · intro errs herr
    rw [validate_error_eq raw errs herr]
    unfold validationErrors
    congr 1
    exact List.filter_congr (fun e _ => fieldOffends_eq raw e)
  · intro e he n hn hcase
    rcases hcase with rfl | rfl
    · exact ⟨e.min, hn, le_refl _, hwf e he⟩
    · exact ⟨e.max, hn, hwf e he, le_refl _⟩
  · intro e he hb errs herr
    rw [validate_error_eq raw errs herr]
    unfold validationErrors
    exact List.mem_map.mpr ⟨e, List.mem_filter.mpr ⟨he, hoffb e he hb⟩, rfl⟩
  · intro e he hb hok
    have hall := (validate_ok_iff raw).mp hok
    have hok2 := hall e he
    have hoff := hoffb e he hb
    exact ((fieldOffends_iff raw e).mp hoff) hok2

/-- A raw submission answering 1 to every question (1 is inside every
schema bound). -/
def rawAllOnes : RawSubmission := fun _ => RawField.num 1

theorem validator_batch_reports_witness :
    ∃ fv, validate rawAllOnes = Except.ok fv :=
  ((validator_batch_reports rawAllOnes).1).mpr (by decide)

lemma latestOf_eq_none_iff (l : List StoreRecord) : latestOf l = none ↔ l = [] := by
  cases l with
  | nil => simp [latestOf]
  | cons r rs =>
    cases hl : latestOf rs with
    | none => simp [latestOf, hl]
    | some a =>
      simp only [latestOf, hl]
      split_ifs <;> simp

lemma latestOf_mem {l : List StoreRecord} {m : StoreRecord}
    (h : latestOf l = some m) : m ∈ l := by
  induction l with
  | nil => simp [latestOf] at h
  | cons r rs ih =>
    cases hl : latestOf rs with
    | none =>
      simp only [latestOf, hl] at h
      cases h
      exact List.mem_cons_self _ _
    | some a =>
      simp only [latestOf, hl] at h
      split_ifs at h with hc
      · cases h
        exact List.mem_cons_of_mem _ (ih hl)
      · cases h
        exact List.mem_cons_self _ _

lemma latestOf_max (l : List StoreRecord) :
    ∀ m, latestOf l = some m → ∀ s ∈ l, s.created_at ≤ m.created_at := by
  induction l with
  | nil =>
    intro m h
    simp [latestOf] at h
  | cons r rs ih =>
    intro m h s hs
    cases hl : latestOf rs with
    | none =>
      have hrs : rs = [] := (latestOf_eq_none_iff rs).mp hl
      subst hrs
      simp only [latestOf] at h
      cases h
      simp only [List.mem_singleton] at hs
      subst hs
      exact le_refl _
    | some a =>
      simp only [latestOf, hl] at h
      rcases List.mem_cons.mp hs with hs | hs
      · subst hs
        split_ifs at h with hc
        · cases h
          exact hc
        · cases h
          exact le_refl _
      · have hsa := ih a hl s hs
        split_ifs at h with hc
        · cases h
          exact hsa
        · cases h
          push_neg at hc
          omega

/-- Spec-side description of a high-risk student: the user has at least one
record, and some High Risk record of theirs is at least as recent as every
record of theirs (spec section 4.6: the user's most recent record is
High Risk). -/
def isMostRecentHighRisk (recs : List StoreRecord) (u : Nat) : Prop :=
  ∃ r ∈ recs, r.user_id = u ∧ r.label = .highRisk ∧
    ∀ s ∈ recs, s.user_id = u → s.created_at ≤ r.created_at

instance (recs : List StoreRecord) (u : Nat) :
    Decidable (isMostRecentHighRisk recs u) := by
  unfold isMostRecentHighRisk
  infer_instance

/-- A one-user store used to witness C7: user 7 has two High Risk records. -/
def exUsers : List Nat := [7]

/-- Two High Risk records of the same user, the second more recent. -/
def exRecs : List StoreRecord :=
  [⟨7, .highRisk, 1, 1⟩, ⟨7, .highRisk, 2, 1⟩]

/-- C7: for a record store whose per-user timestamps are distinct, the
Dashboard Aggregator's high_risk_students equals the number of distinct
users whose most recent record carries the High Risk label; on a store
where one user owns two High Risk records it reports 1 while the overall
count of High Risk records is 2 — it does not count records. -/
theorem dashboard_high_risk_students_latest (users : List Nat) (recs : List StoreRecord)
    (hnd : users.Nodup)
    (hinj : ∀ r ∈ recs, ∀ s ∈ recs, r.user_id = s.user_id →
      r.created_at = s.created_at → r = s) :
    (dashboardStats users recs).high_risk_students =
        users.countP (fun u => decide (isMostRecentHighRisk recs u)) ∧
      (dashboardStats exUsers exRecs).high_risk_students = 1 ∧
      (dashboardStats exUsers exRecs).dist_high = 2 := by
  refine ⟨?_, by decide, by decide⟩
  show (users.filter _).length = _
  rw [List.countP_eq_length_filter]
  congr 1
  refine List.filter_congr ?_
  intro u _
  cases hm : userLatest recs u with
  | none =>
    have hnil : recs.filter (fun r => decide (r.user_id = u)) = [] :=
      (latestOf_eq_none_iff _).mp hm
    have hnot : ¬ isMostRecentHighRisk recs u := by
      rintro ⟨r, hr, hru, _, _⟩
      have hmemf : r ∈ recs.filter (fun r => decide (r.user_id = u)) :=
        List.mem_filter.mpr ⟨hr, by simp [hru]⟩
      rw [hnil] at hmemf
      cases hmemf
    simp [hm, hnot]
  | some m =>
    have hmemf := latestOf_mem hm
    have hmf := List.mem_filter.mp hmemf
    have hmu : m.user_id = u := by
      simpa using hmf.2
    have hmax := latestOf_max _ m hm
    by_cases hlab : m.label = .highRisk
    · have hmr : isMostRecentHighRisk recs u :=
        ⟨m, hmf.1, hmu, hlab, fun s hs hsu =>
          hmax s (List.mem_filter.mpr ⟨hs, by simp [hsu]⟩)⟩
      simp [hm, hlab, hmr]
    · have hnot : ¬ isMostRecentHighRisk recs u := by
        rintro ⟨r, hr, hru, hrh, hrmax⟩
        have hrf : r ∈ recs.filter (fun r => decide (r.user_id = u)) :=
          List.mem_filter.mpr ⟨hr, by simp [hru]⟩
        have h1 : r.created_at ≤ m.created_at := hmax r hrf
        have h2 : m.created_at ≤ r.created_at := hrmax m hmf.1 hmu
        have heq : r = m :=
          hinj r hr m hmf.1 (by rw [hru, hmu]) (Nat.le_antisymm h1 h2)
        exact hlab (heq ▸ hrh)
      simp [hm, hlab, hnot]

theorem dashboard_high_risk_students_witness :
    (dashboardStats exUsers exRecs).high_risk_students =
      exUsers.countP (fun u => decide (isMostRecentHighRisk exRecs u)) :=
  (dashboard_high_risk_students_latest exUsers exRecs (by decide) (by decide)).1

end StressMonitor
